import Mathlib

/-!
Verification of the year-by-year tax-and-investment projection engine of the
PensionTaxModel repository.  Python floats are modelled as exact rationals
(`ℚ`); the `float("inf")` upper bound of the last IRPEF bracket is modelled
as `none` in an `Option ℚ` field.
-/

/-- Shallow embedding of the dataclass `IrpefBracket` from
`app/modules/tax.py`.  The float field `up_to` is `Option ℚ`, with `none`
standing for `float("inf")`. -/
structure IrpefBracket where
  up_to : Option ℚ
  rate : ℚ

/-- Embedding of `italian_irpef_2025` from `app/modules/tax.py`. -/
def italian_irpef_2025 : List IrpefBracket :=
  [⟨some 28000, 23/100⟩, ⟨some 50000, 35/100⟩, ⟨none, 43/100⟩]

/-- Loop of `calc_irpef_tax` from `app/modules/tax.py`, with the loop state
`(remaining, prev_cap, tax)` passed explicitly.  For a bracket with
`up_to = none` (Python `inf`), `span = min(remaining, inf - prev_cap)`
equals `remaining`, and after processing such a bracket the Python loop
always breaks (either `span <= 0`, hence `remaining <= 0`, or the updated
`remaining` is `0`), so the `prev_cap = inf` assignment never feeds a later
iteration and `prev_cap` can stay a plain rational. -/
def calc_irpef_tax_go : List IrpefBracket → ℚ → ℚ → ℚ → ℚ
  | [], _, _, tax => tax
  | b :: bs, remaining, prev_cap, tax =>
    match b.up_to with
    | none => if 0 < remaining then tax + remaining * b.rate else tax
    | some u =>
      if 0 < min remaining (u - prev_cap) then
        if remaining - min remaining (u - prev_cap) ≤ 0 then
          tax + min remaining (u - prev_cap) * b.rate
        else
          calc_irpef_tax_go bs (remaining - min remaining (u - prev_cap)) u
            (tax + min remaining (u - prev_cap) * b.rate)
      else
        if remaining ≤ 0 then tax
        else calc_irpef_tax_go bs remaining prev_cap tax

/-- Embedding of `calc_irpef_tax` from `app/modules/tax.py`:
run the bracket loop from `remaining = income`, `prev_cap = 0`, `tax = 0`
and return `max(tax, 0.0)`. -/
def calc_irpef_tax (income_eur : ℚ) (brackets : List IrpefBracket) : ℚ :=
  max (calc_irpef_tax_go brackets income_eur 0 0) 0

/-- Embedding of `add_region_muni_surcharge` from `app/modules/tax.py`. -/
def add_region_muni_surcharge (tax_eur regional_pct municipal_pct : ℚ) : ℚ :=
  tax_eur * (1 + regional_pct + municipal_pct)

/-- Embedding of `tax_at_irpef_with_surcharges` from `app/modules/tax.py`. -/
def tax_at_irpef_with_surcharges (amount_eur : ℚ) (brackets : List IrpefBracket)
    (regional_pct municipal_pct : ℚ) : ℚ :=
  add_region_muni_surcharge (calc_irpef_tax amount_eur brackets) regional_pct municipal_pct

/-- C2: with the 2025 IRPEF table `[(28000, 0.23), (50000, 0.35), (inf, 0.43)]`,
`calc_irpef_tax` returns exactly 10640 on income 40000 and exactly 22740 on
income 70000: marginal slices `28000·0.23 + 12000·0.35` and
`28000·0.23 + 22000·0.35 + 20000·0.43`, the excess over all finite bounds
being taxed at the unbounded top bracket's rate. -/
theorem c2_bracket_tax_scenarios :
    calc_irpef_tax 40000 italian_irpef_2025 = 10640 ∧
    calc_irpef_tax 70000 italian_irpef_2025 = 22740 := by
  constructor <;>
    norm_num [calc_irpef_tax, calc_irpef_tax_go, italian_irpef_2025, min_def, max_def]

/-- Shallow embedding of the dataclass `StrategyInputs` from
`app/modules/finance.py`. -/
structure StrategyInputs where
  allocation_pct : ℚ
  gross_yield_pct : ℚ
  mgmt_fee_pct : ℚ
  growth_pct : ℚ
  is_foreign_source : Bool

/-- Embedding of `annual_investment_step` from `app/modules/finance.py`.
Returns the tuple `(end_capital, net_income, gross_income, tax)`. -/
def annual_investment_step (capital : ℚ) (strategy : StrategyInputs)
    (in_regime_7pct : Bool) (tax_func_post10 : ℚ → ℚ) : ℚ × ℚ × ℚ × ℚ :=
  let gross_income := capital * (strategy.gross_yield_pct / 100)
  let fees := capital * (strategy.mgmt_fee_pct / 100)
  let income_after_fees := max (gross_income - fees) 0
  let tax :=
    if in_regime_7pct && strategy.is_foreign_source then
      income_after_fees * (7/100)
    else
      if 0 < income_after_fees then tax_func_post10 income_after_fees else 0
  let net_income := max (income_after_fees - tax) 0
  let capital_growth := capital * (strategy.growth_pct / 100)
  let end_capital := capital + capital_growth
  (end_capital, net_income, gross_income, tax)

/-- Embedding of `blend_allocations` from `app/modules/finance.py`; the
Python dict of strategies is modelled as an association list in insertion
order. -/
def blend_allocations (strategies : List (String × StrategyInputs)) : ℚ :=
  (strategies.map (fun pr => pr.2.allocation_pct)).sum

/-- Embedding of `weighted_starting_capital` from `app/modules/finance.py`. -/
def weighted_starting_capital (total_capital : ℚ)
    (strategies : List (String × StrategyInputs)) : List (String × ℚ) :=
  if blend_allocations strategies ≤ 0 then strategies.map (fun pr => (pr.1, 0))
  else strategies.map
    (fun pr => (pr.1, total_capital * (pr.2.allocation_pct / blend_allocations strategies)))

/-- C4: concrete per-strategy step scenarios: capital 100000, yield 4%,
fee 0.5%, growth 2%.  In-regime foreign-source: fees 500,
income after fees 3500, result (end_capital 102000, net 3255, gross 4000,
tax 245).  Post-regime with the 2025 brackets and surcharges 1% + 0.5%:
tax 805 · 1.015 = 817.075 and net 2682.925. -/
theorem c4_annual_step_scenarios :
    (100000 : ℚ) * ((1/2) / 100) = 500 ∧
    max ((4000 : ℚ) - 500) 0 = 3500 ∧
    annual_investment_step 100000 ⟨100, 4, 1/2, 2, true⟩ true
      (fun a => tax_at_irpef_with_surcharges a italian_irpef_2025 (1/100) (1/200)) =
      (102000, 3255, 4000, 245) ∧
    annual_investment_step 100000 ⟨100, 4, 1/2, 2, true⟩ false
      (fun a => tax_at_irpef_with_surcharges a italian_irpef_2025 (1/100) (1/200)) =
      (102000, 2682925/1000, 4000, 817075/1000) := by
  refine ⟨by norm_num, by norm_num [max_def], ?_, ?_⟩ <;>
    norm_num [annual_investment_step, tax_at_irpef_with_surcharges,
      add_region_muni_surcharge, calc_irpef_tax, calc_irpef_tax_go,
      italian_irpef_2025, min_def, max_def, Prod.ext_iff]

/-- C7: for every capital, strategy, regime flag and tax callback, the end
capital of `annual_investment_step` equals `capital * (1 + growth_pct/100)`;
and with yield and fee both 0 the step returns that end capital together
with net income, gross income and tax all 0. -/
theorem c7_capital_growth_independent :
    (∀ (capital : ℚ) (s : StrategyInputs) (regime : Bool) (f : ℚ → ℚ),
      (annual_investment_step capital s regime f).1 = capital * (1 + s.growth_pct / 100)) ∧
    (∀ (capital a g : ℚ) (foreign regime : Bool) (f : ℚ → ℚ),
      annual_investment_step capital ⟨a, 0, 0, g, foreign⟩ regime f =
        (capital * (1 + g / 100), 0, 0, 0)) := by
  constructor
  · intro capital s regime f
    simp only [annual_investment_step]
    ring
  · intro capital a g foreign regime f
    simp only [annual_investment_step]
    norm_num [Prod.ext_iff]
    ring

/-- C10: in the flat-regime foreign-source branch the post-regime tax
callback has no influence on the result of `annual_investment_step`
(two-run noninterference), and whenever the clamped income after fees is 0
the callback is likewise never consulted and the returned tax is 0. -/
theorem c10_flat_regime_noninterference (capital capital' a yld fee g : ℚ)
    (s : StrategyInputs) (regime : Bool) (f₁ f₂ : ℚ → ℚ)
    (h : max (capital' * (s.gross_yield_pct / 100) - capital' * (s.mgmt_fee_pct / 100)) 0 = 0) :
    annual_investment_step capital ⟨a, yld, fee, g, true⟩ true f₁ =
      annual_investment_step capital ⟨a, yld, fee, g, true⟩ true f₂ ∧
    annual_investment_step capital' s regime f₁ = annual_investment_step capital' s regime f₂ ∧
    (annual_investment_step capital' s regime f₁).2.2.2 = 0 := by
  refine ⟨by simp [annual_investment_step], ?_, ?_⟩ <;>
    simp only [annual_investment_step, h] <;> norm_num

/-- Witness for C10: capital 100, yield 1%, fee 2% gives clamped income
after fees 0; the step result is independent of the callback and tax is 0. -/
theorem c10_flat_regime_noninterference_witness :
    max ((100 : ℚ) * (1 / 100) - 100 * (2 / 100)) 0 = 0 ∧
    (annual_investment_step 100 ⟨0, 1, 2, 0, true⟩ true (fun x => x) =
      annual_investment_step 100 ⟨0, 1, 2, 0, true⟩ true (fun _ => 99) ∧
    annual_investment_step 100 ⟨0, 1, 2, 0, false⟩ false (fun x => x) =
      annual_investment_step 100 ⟨0, 1, 2, 0, false⟩ false (fun _ => 99) ∧
    (annual_investment_step 100 ⟨0, 1, 2, 0, false⟩ false (fun x => x)).2.2.2 = 0) :=
  ⟨by norm_num [max_def],
   c10_flat_regime_noninterference 100 100 0 1 2 0 ⟨0, 1, 2, 0, false⟩ false
     (fun x => x) (fun _ => 99) (by norm_num [max_def])⟩

/-- C6: with non-negative surcharge rates, every tax amount produced by
`calc_irpef_tax`, by the surcharge adjuster applied to it, and by
`annual_investment_step` wired to the surcharged bracket tax is
non-negative, the clamped income after fees is non-negative, and the net
income of the step is non-negative. -/
theorem c6_no_negative_outputs (income capital : ℚ) (brackets : List IrpefBracket)
    (s : StrategyInputs) (regime : Bool) (r m : ℚ) (hr : 0 ≤ r) (hm : 0 ≤ m) :
    0 ≤ calc_irpef_tax income brackets ∧
    0 ≤ add_region_muni_surcharge (calc_irpef_tax income brackets) r m ∧
    0 ≤ max (capital * (s.gross_yield_pct / 100) - capital * (s.mgmt_fee_pct / 100)) 0 ∧
    0 ≤ (annual_investment_step capital s regime
          (fun a => tax_at_irpef_with_surcharges a brackets r m)).2.2.2 ∧
    0 ≤ (annual_investment_step capital s regime
          (fun a => tax_at_irpef_with_surcharges a brackets r m)).2.1 := by
  have hta : ∀ x : ℚ, 0 ≤ tax_at_irpef_with_surcharges x brackets r m := by
    intro x
    unfold tax_at_irpef_with_surcharges add_region_muni_surcharge calc_irpef_tax
    exact mul_nonneg (le_max_right _ _) (by linarith)
  refine ⟨le_max_right _ _, ?_, le_max_right _ _, ?_, ?_⟩
  · exact mul_nonneg (le_max_right _ _) (by linarith)
  · simp only [annual_investment_step]
    split_ifs with h1 h2
    · exact mul_nonneg (le_max_right _ _) (by norm_num)
    · exact hta _
    · exact le_refl 0
  · simp only [annual_investment_step]
    exact le_max_right _ _

/-- Witness for C6 at income 5, capital 1000, the 2025 brackets, a concrete
strategy and surcharges 1% and 0.5%. -/
theorem c6_no_negative_outputs_witness :
    0 ≤ calc_irpef_tax 5 italian_irpef_2025 ∧
    0 ≤ add_region_muni_surcharge (calc_irpef_tax 5 italian_irpef_2025) (1/100) (1/200) ∧
    0 ≤ max ((1000 : ℚ) * ((4 : ℚ) / 100) - 1000 * ((1/2 : ℚ) / 100)) 0 ∧
    0 ≤ (annual_investment_step 1000 ⟨100, 4, 1/2, 2, true⟩ true
          (fun a => tax_at_irpef_with_surcharges a italian_irpef_2025 (1/100) (1/200))).2.2.2 ∧
    0 ≤ (annual_investment_step 1000 ⟨100, 4, 1/2, 2, true⟩ true
          (fun a => tax_at_irpef_with_surcharges a italian_irpef_2025 (1/100) (1/200))).2.1 :=
  c6_no_negative_outputs 5 1000 italian_irpef_2025 ⟨100, 4, 1/2, 2, true⟩ true
    (1/100) (1/200) (by norm_num) (by norm_num)

/-- With no remaining income the bracket loop of `calc_irpef_tax` adds no
tax: the span of the first bracket is non-positive and the loop breaks. -/
theorem calc_irpef_tax_go_nonpos (bs : List IrpefBracket) (rem pc t : ℚ)
    (h : rem ≤ 0) : calc_irpef_tax_go bs rem pc t = t := by
  cases bs with
  | nil => rfl
  | cons b bs =>
    obtain ⟨up, r⟩ := b
    cases up with
    | none => simp [calc_irpef_tax_go, not_lt.mpr h, h]
    | some u =>
      have hmin : min rem (u - pc) ≤ 0 := le_trans (min_le_left _ _) h
      simp [calc_irpef_tax_go, not_lt.mpr hmin, h]

/-- Income 0 yields bracket tax 0, for every bracket table. -/
theorem calc_irpef_tax_zero (bs : List IrpefBracket) : calc_irpef_tax 0 bs = 0 := by
  unfold calc_irpef_tax
  rw [calc_irpef_tax_go_nonpos bs 0 0 0 le_rfl]
  simp

/-- Parameters of the simulation in `app/app.py` read by the yearly loop:
pension amounts already converted to EUR, the regime length, the surcharge
rates, the bracket table and the strategy dict (modelled as an association
list in insertion order). -/
structure SimParams where
  you_pension_eur : ℚ
  wife_pension_eur : ℚ
  years_in_7pct : ℕ
  regional_surcharge : ℚ
  municipal_surcharge : ℚ
  brackets : List IrpefBracket
  strategies : List (String × StrategyInputs)

/-- Embedding of the closure `invest_tax_post10` defined inside the yearly
loop of `app/app.py`. -/
def invest_tax_post10 (p : SimParams) (amount_eur : ℚ) : ℚ :=
  tax_at_irpef_with_surcharges amount_eur p.brackets p.regional_surcharge p.municipal_surcharge

/-- Embedding of `pots.get(name, 0.0)` from `app/app.py`. -/
def pots_get (pots : List (String × ℚ)) (name : String) : ℚ :=
  match pots.find? (fun q => q.1 == name) with
  | some q => q.2
  | none => 0

/-- Accumulator of the inner per-strategy loop of `app/app.py`: the new
pots and the running foreign/italian income and tax totals. -/
structure StratAcc where
  new_pots : List (String × ℚ)
  foreign_income : ℚ
  foreign_tax : ℚ
  italian_income : ℚ
  italian_tax : ℚ

/-- One row of the per-year tracking lists recorded in `app/app.py`. -/
structure YearRecord where
  year_end_capital : ℚ
  year_pension_gross : ℚ
  year_tax_total : ℚ
  year_net_income_total : ℚ
  year_foreign_invest_income : ℚ
  year_italian_invest_income : ℚ
  year_foreign_invest_tax : ℚ
  year_italian_invest_tax : ℚ
  year_pension_tax : ℚ

/-- Embedding of one iteration of the yearly loop of `app/app.py`
(lines 260-306): the pension branch, the inner per-strategy loop, and the
aggregation into the recorded year row.  Returns the new pots and the
YearRecord. -/
def sim_year (p : SimParams) (y : ℕ) (pots : List (String × ℚ)) :
    List (String × ℚ) × YearRecord :=
  let in_regime : Bool := decide (y ≤ p.years_in_7pct)
  let pension_gross := p.you_pension_eur + p.wife_pension_eur
  let pension_tax :=
    if in_regime then pension_gross * (7/100)
    else add_region_muni_surcharge (calc_irpef_tax pension_gross p.brackets)
      p.regional_surcharge p.municipal_surcharge
  let pension_net := pension_gross - pension_tax
  let acc := p.strategies.foldl
    (fun (a : StratAcc) pr =>
      let res := annual_investment_step (pots_get pots pr.1) pr.2 in_regime (invest_tax_post10 p)
      { new_pots := a.new_pots ++ [(pr.1, res.1)]
        foreign_income :=
          if pr.2.is_foreign_source then a.foreign_income + res.2.2.1 else a.foreign_income
        foreign_tax :=
          if pr.2.is_foreign_source then a.foreign_tax + res.2.2.2 else a.foreign_tax
        italian_income :=
          if pr.2.is_foreign_source then a.italian_income else a.italian_income + res.2.2.1
        italian_tax :=
          if pr.2.is_foreign_source then a.italian_tax else a.italian_tax + res.2.2.2 })
    ⟨[], 0, 0, 0, 0⟩
  (acc.new_pots,
   { year_end_capital := (acc.new_pots.map Prod.snd).sum
     year_pension_gross := pension_gross
     year_tax_total := pension_tax + acc.foreign_tax + acc.italian_tax
     year_net_income_total :=
       pension_net + (acc.foreign_income - acc.foreign_tax) +
         (acc.italian_income - acc.italian_tax)
     year_foreign_invest_income := acc.foreign_income
     year_italian_invest_income := acc.italian_income
     year_foreign_invest_tax := acc.foreign_tax
     year_italian_invest_tax := acc.italian_tax
     year_pension_tax := pension_tax })

/-- C1: regime-switch correctness.  In `annual_investment_step` driven with
`in_regime = (y ≤ years_in_7pct)` and the app's post-regime callback, the
returned tax is 7% of the clamped income after fees exactly when the year
is in the regime and the strategy is foreign-source, and otherwise the
surcharge-adjusted bracket tax of that income; likewise in the pension
branch of the yearly loop the pension tax is `0.07 * pension_gross` during
the regime and the surcharge-adjusted bracket tax of the gross pension
after it. -/
theorem c1_regime_switch (p : SimParams) (y : ℕ) (pots : List (String × ℚ))
    (capital : ℚ) (s : StrategyInputs) :
    ((annual_investment_step capital s (decide (y ≤ p.years_in_7pct))
        (invest_tax_post10 p)).2.2.2 =
      if y ≤ p.years_in_7pct ∧ s.is_foreign_source = true then
        (7/100) * max (capital * (s.gross_yield_pct / 100) - capital * (s.mgmt_fee_pct / 100)) 0
      else
        tax_at_irpef_with_surcharges
          (max (capital * (s.gross_yield_pct / 100) - capital * (s.mgmt_fee_pct / 100)) 0)
          p.brackets p.regional_surcharge p.municipal_surcharge) ∧
    ((sim_year p y pots).2.year_pension_tax =
      if y ≤ p.years_in_7pct then
        (7/100) * (p.you_pension_eur + p.wife_pension_eur)
      else
        add_region_muni_surcharge
          (calc_irpef_tax (p.you_pension_eur + p.wife_pension_eur) p.brackets)
          p.regional_surcharge p.municipal_surcharge) := by
  have key : (if 0 < max (capital * (s.gross_yield_pct / 100) -
        capital * (s.mgmt_fee_pct / 100)) 0 then
        invest_tax_post10 p (max (capital * (s.gross_yield_pct / 100) -
          capital * (s.mgmt_fee_pct / 100)) 0) else 0) =
      tax_at_irpef_with_surcharges
        (max (capital * (s.gross_yield_pct / 100) - capital * (s.mgmt_fee_pct / 100)) 0)
        p.brackets p.regional_surcharge p.municipal_surcharge := by
    by_cases hpos : 0 < max (capital * (s.gross_yield_pct / 100) -
        capital * (s.mgmt_fee_pct / 100)) 0
    · simp [hpos, invest_tax_post10]
    · have h0 : max (capital * (s.gross_yield_pct / 100) -
          capital * (s.mgmt_fee_pct / 100)) 0 = 0 :=
        le_antisymm (not_lt.mp hpos) (le_max_right _ _)
      rw [h0]
      simp [hpos, tax_at_irpef_with_surcharges, add_region_muni_surcharge,
        calc_irpef_tax_zero]
  constructor
  · simp only [annual_investment_step]
    by_cases hy : y ≤ p.years_in_7pct <;> by_cases hf : s.is_foreign_source = true
    · simp [hy, hf, mul_comm]
    · simp [hy, hf]
      simpa using key
    · simp [hy, hf]
      simpa using key
    · simp [hy, hf]
      simpa using key
  · simp only [sim_year]
    by_cases hy : y ≤ p.years_in_7pct <;> simp [hy, mul_comm]

/-- C3 (amended): the yearly total net income recorded by the loop of
`app/app.py` equals `(pension_gross - pension_tax) + (foreign_gross -
foreign_tax) + (italian_gross - italian_tax)`: gross investment income net
of tax only — the strategies' fees are not subtracted at the yearly level
and no floor at 0 is applied (the per-strategy `net_income`, which does
subtract fees and clamp at 0, is discarded by the loop). -/
theorem c3_total_net_formula (p : SimParams) (y : ℕ) (pots : List (String × ℚ)) :
    (sim_year p y pots).2.year_net_income_total =
      ((sim_year p y pots).2.year_pension_gross - (sim_year p y pots).2.year_pension_tax) +
      ((sim_year p y pots).2.year_foreign_invest_income -
        (sim_year p y pots).2.year_foreign_invest_tax) +
      ((sim_year p y pots).2.year_italian_invest_income -
        (sim_year p y pots).2.year_italian_invest_tax) := by
  simp only [sim_year]

/-- Counterexample to C3 as stated: one in-regime year, no pensions, a
single foreign-source strategy with capital 1000, yield 10% and fee 5%.
Gross income is 100, fees are 50, tax is 3.5, so the claim's value
`max(gross - fees - tax, 0)` is 46.5 — but the loop records
`total_net = 96.5`, never subtracting the fees. -/
theorem c3_total_net_counterexample :
    (sim_year ⟨0, 0, 10, 1/100, 1/200, italian_irpef_2025,
        [("S", ⟨100, 10, 5, 0, true⟩)]⟩ 1 [("S", 1000)]).2.year_net_income_total = 193/2 ∧
    max ((sim_year ⟨0, 0, 10, 1/100, 1/200, italian_irpef_2025,
          [("S", ⟨100, 10, 5, 0, true⟩)]⟩ 1 [("S", 1000)]).2.year_pension_gross +
        (sim_year ⟨0, 0, 10, 1/100, 1/200, italian_irpef_2025,
          [("S", ⟨100, 10, 5, 0, true⟩)]⟩ 1 [("S", 1000)]).2.year_foreign_invest_income +
        (sim_year ⟨0, 0, 10, 1/100, 1/200, italian_irpef_2025,
          [("S", ⟨100, 10, 5, 0, true⟩)]⟩ 1 [("S", 1000)]).2.year_italian_invest_income -
        1000 * ((5 : ℚ)/100) -
        (sim_year ⟨0, 0, 10, 1/100, 1/200, italian_irpef_2025,
          [("S", ⟨100, 10, 5, 0, true⟩)]⟩ 1 [("S", 1000)]).2.year_tax_total) 0 = 93/2 ∧
    (193/2 : ℚ) ≠ 93/2 := by
  refine ⟨?_, ?_, by norm_num⟩ <;>
    norm_num [sim_year, annual_investment_step, invest_tax_post10, pots_get,
      List.find?, List.foldl, max_def]

/-- Mapping every strategy to a zero pot gives the all-zero value list. -/
theorem map_snd_zero_pots (l : List (String × StrategyInputs)) :
    (l.map (fun pr => (pr.1, (0 : ℚ)))).map Prod.snd = List.replicate l.length 0 := by
  induction l with
  | nil => rfl
  | cons hd tl ih => simp [ih, List.replicate_succ]

/-- Scalar multiplication distributes over the summed allocation column. -/
theorem sum_map_snd_scaled (l : List (String × StrategyInputs)) (k : ℚ) :
    ((l.map (fun pr => (pr.1, k * pr.2.allocation_pct))).map Prod.snd).sum =
      k * (l.map (fun pr => pr.2.allocation_pct)).sum := by
  induction l with
  | nil => simp
  | cons hd tl ih =>
    simp only [List.map_cons, List.sum_cons, List.map_map] at ih ⊢
    rw [ih]
    ring

/-- C9: `weighted_starting_capital` special-cases a zero allocation sum by
returning all-zero pots (no division occurs), and for a positive
allocation sum returns `total_capital * (allocation / allocation_sum)` per
strategy, so the pots sum exactly to the total capital. -/
theorem c9_weighted_starting_capital (total_capital : ℚ)
    (strategies : List (String × StrategyInputs)) :
    (blend_allocations strategies = 0 →
      (weighted_starting_capital total_capital strategies).map Prod.snd =
        List.replicate strategies.length 0) ∧
    (0 < blend_allocations strategies →
      weighted_starting_capital total_capital strategies =
        strategies.map (fun pr =>
          (pr.1, total_capital * (pr.2.allocation_pct / blend_allocations strategies))) ∧
      ((weighted_starting_capital total_capital strategies).map Prod.snd).sum =
        total_capital) := by
  constructor
  · intro h
    unfold weighted_starting_capital
    rw [h]
    simp only [le_refl, if_true]
    exact map_snd_zero_pots strategies
  · intro hpos
    have hne : blend_allocations strategies ≠ 0 := ne_of_gt hpos
    have hnle : ¬ blend_allocations strategies ≤ 0 := not_le.mpr hpos
    refine ⟨by simp [weighted_starting_capital, hnle], ?_⟩
    unfold weighted_starting_capital
    rw [if_neg hnle]
    have heq : strategies.map (fun pr =>
        (pr.1, total_capital * (pr.2.allocation_pct / blend_allocations strategies))) =
        strategies.map (fun pr =>
          (pr.1, (total_capital / blend_allocations strategies) * pr.2.allocation_pct)) := by
      apply List.map_congr_left
      intro pr _
      simp only [Prod.mk.injEq, true_and]
      ring
    rw [heq, sum_map_snd_scaled]
    exact div_mul_cancel₀ total_capital hne

/-- Witness for C9: a positive allocation sum of 100 splits 500 into pots
summing to 500, and a zero allocation sum yields the zero pot. -/
theorem c9_weighted_starting_capital_witness :
    (0 : ℚ) < blend_allocations
      [("Cash", ⟨40, 0, 0, 0, true⟩), ("Bonds", ⟨60, 0, 0, 0, true⟩)] ∧
    ((weighted_starting_capital 500
        [("Cash", ⟨40, 0, 0, 0, true⟩), ("Bonds", ⟨60, 0, 0, 0, true⟩)]).map Prod.snd).sum =
      500 ∧
    (weighted_starting_capital 500 [("Z", ⟨0, 0, 0, 0, true⟩)]).map Prod.snd =
      List.replicate 1 0 := by
  have h1 : (0 : ℚ) < blend_allocations
      [("Cash", ⟨40, 0, 0, 0, true⟩), ("Bonds", ⟨60, 0, 0, 0, true⟩)] := by
    norm_num [blend_allocations]
  have h0 : blend_allocations [("Z", (⟨0, 0, 0, 0, true⟩ : StrategyInputs))] = 0 := by
    norm_num [blend_allocations]
  exact ⟨h1, ((c9_weighted_starting_capital 500 _).2 h1).2,
    (c9_weighted_starting_capital 500 _).1 h0⟩

/-- Validity of a bracket table as assumed by the spec, relative to the
lower bound `c` of its first bracket: upper bounds strictly increase, the
last bracket is unbounded (`up_to = none`), and every rate lies in
`[0, 1]`. -/
inductive ValidFrom : ℚ → List IrpefBracket → Prop
  | last (c r : ℚ) (h0 : 0 ≤ r) (h1 : r ≤ 1) : ValidFrom c [⟨none, r⟩]
  | cons (c u r : ℚ) (bs : List IrpefBracket) (hcu : c < u) (h0 : 0 ≤ r) (h1 : r ≤ 1)
      (h : ValidFrom u bs) : ValidFrom c (⟨some u, r⟩ :: bs)

/-- Every rate of a valid bracket table is non-negative. -/
theorem ValidFrom.rates_nonneg {c : ℚ} {bs : List IrpefBracket}
    (hv : ValidFrom c bs) : ∀ b ∈ bs, 0 ≤ b.rate := by
  induction hv with
  | last c r h0 h1 =>
    intro b hb
    simp only [List.mem_singleton] at hb
    rw [hb]
    exact h0
  | cons c u r bs hcu h0 h1 h ih =>
    intro b hb
    rcases List.mem_cons.mp hb with hb | hb
    · rw [hb]; exact h0
    · exact ih b hb

/-- The bracket loop only ever adds to the running tax: its result on a
starting tax `t` is `t` plus its result on starting tax `0`. -/
theorem calc_irpef_tax_go_add (bs : List IrpefBracket) :
    ∀ (rem pc t : ℚ), calc_irpef_tax_go bs rem pc t = t + calc_irpef_tax_go bs rem pc 0 := by
  induction bs with
  | nil => intro rem pc t; simp [calc_irpef_tax_go]
  | cons b bs ih =>
    intro rem pc t
    obtain ⟨up, r⟩ := b
    cases up with
    | none =>
      by_cases h : 0 < rem <;> simp [calc_irpef_tax_go, h]
    | some u =>
      by_cases h1 : 0 < min rem (u - pc)
      · by_cases h2 : rem - min rem (u - pc) ≤ 0
        · simp [calc_irpef_tax_go, h1, h2]
        · simp only [calc_irpef_tax_go, if_pos h1, if_neg h2]
          rw [ih _ _ (t + min rem (u - pc) * r), ih _ _ (0 + min rem (u - pc) * r)]
          ring
      · by_cases h2 : rem ≤ 0
        · simp [calc_irpef_tax_go, h1, h2]
        · simp only [calc_irpef_tax_go, if_neg h1, if_neg h2]
          exact ih rem pc t

/-- With non-negative rates the bracket loop starting from tax `0` returns
a non-negative tax. -/
theorem calc_irpef_tax_go_nonneg :
    ∀ (bs : List IrpefBracket), (∀ b ∈ bs, 0 ≤ b.rate) →
      ∀ (rem pc : ℚ), 0 ≤ calc_irpef_tax_go bs rem pc 0 := by
  intro bs
  induction bs with
  | nil => intro _ rem pc; simp [calc_irpef_tax_go]
  | cons b bs ih =>
    intro hr rem pc
    have hb : 0 ≤ b.rate := hr b (List.mem_cons_self b bs)
    have hbs : ∀ x ∈ bs, 0 ≤ x.rate := fun x hx => hr x (List.mem_cons_of_mem _ hx)
    obtain ⟨up, r⟩ := b
    cases up with
    | none =>
      by_cases h : 0 < rem
      · simp only [calc_irpef_tax_go, if_pos h]
        have := mul_nonneg (le_of_lt h) hb
        simp only [zero_add]
        exact this
      · simp [calc_irpef_tax_go, h]
    | some u =>
      by_cases h1 : 0 < min rem (u - pc)
      · by_cases h2 : rem - min rem (u - pc) ≤ 0
        · simp only [calc_irpef_tax_go, if_pos h1, if_pos h2, zero_add]
          exact mul_nonneg (le_of_lt h1) hb
        · simp only [calc_irpef_tax_go, if_pos h1, if_neg h2]
          rw [calc_irpef_tax_go_add]
          have := mul_nonneg (le_of_lt h1) hb
          have := ih hbs (rem - min rem (u - pc)) u
          linarith
      · by_cases h2 : rem ≤ 0
        · simp [calc_irpef_tax_go, h1, h2]
        · simp only [calc_irpef_tax_go, if_neg h1, if_neg h2]
          exact ih hbs rem pc

/-- On a valid bracket table the loop is monotone in the remaining
income, for positive income. -/
theorem calc_irpef_tax_go_mono {bs : List IrpefBracket} {c : ℚ} (hv : ValidFrom c bs) :
    ∀ (x y t : ℚ), 0 < x → x ≤ y →
      calc_irpef_tax_go bs x c t ≤ calc_irpef_tax_go bs y c t := by
  induction hv with
  | last c r h0 h1 =>
    intro x y t hx hxy
    have hy : 0 < y := lt_of_lt_of_le hx hxy
    simp only [calc_irpef_tax_go, if_pos hx, if_pos hy]
    have := mul_le_mul_of_nonneg_right hxy h0
    linarith
  | cons c u r bs hcu h0 h1 h ih =>
    intro x y t hx hxy
    have hy : 0 < y := lt_of_lt_of_le hx hxy
    have hspan : 0 < u - c := by linarith
    have hsx : 0 < min x (u - c) := lt_min hx hspan
    have hsy : 0 < min y (u - c) := lt_min hy hspan
    simp only [calc_irpef_tax_go, if_pos hsx, if_pos hsy]
    by_cases hxu : x ≤ u - c
    · have hminx : min x (u - c) = x := min_eq_left hxu
      rw [hminx]
      have hx0 : x - x ≤ 0 := by linarith
      rw [if_pos hx0]
      by_cases hyu : y ≤ u - c
      · have hminy : min y (u - c) = y := min_eq_left hyu
        rw [hminy]
        have hy0 : y - y ≤ 0 := by linarith
        rw [if_pos hy0]
        have := mul_le_mul_of_nonneg_right hxy h0
        linarith
      · have huy : u - c ≤ y := le_of_not_le hyu
        have hminy : min y (u - c) = u - c := min_eq_right huy
        rw [hminy]
        have hy0 : ¬ y - (u - c) ≤ 0 := by
          push_neg at hyu ⊢
          linarith
        rw [if_neg hy0]
        rw [calc_irpef_tax_go_add]
        have hgo : 0 ≤ calc_irpef_tax_go bs (y - (u - c)) u 0 :=
          calc_irpef_tax_go_nonneg bs h.rates_nonneg _ _
        have := mul_le_mul_of_nonneg_right hxu h0
        linarith
    · have hux : u - c ≤ x := le_of_not_le hxu
      have hminx : min x (u - c) = u - c := min_eq_right hux
      rw [hminx]
      have hx0 : ¬ x - (u - c) ≤ 0 := by
        push_neg at hxu ⊢
        linarith
      rw [if_neg hx0]
      have huy : u - c ≤ y := le_trans hux hxy
      have hminy : min y (u - c) = u - c := min_eq_right huy
      rw [hminy]
      have hy0 : ¬ y - (u - c) ≤ 0 := by
        push_neg at hx0 ⊢
        linarith
      rw [if_neg hy0]
      exact ih (x - (u - c)) (y - (u - c)) _ (by linarith) (by linarith)

/-- C8: for a valid bracket table (strictly increasing bounds, last bound
unbounded, rates in `[0, 1]`) the bracket tax is non-decreasing in
income. -/
theorem c8_bracket_tax_monotone (brackets : List IrpefBracket) (x y : ℚ)
    (hv : ValidFrom 0 brackets) (hxy : x ≤ y) :
    calc_irpef_tax x brackets ≤ calc_irpef_tax y brackets := by
  unfold calc_irpef_tax
  by_cases hx : 0 < x
  · exact max_le_max (calc_irpef_tax_go_mono hv x y 0 hx hxy) le_rfl
  · rw [calc_irpef_tax_go_nonpos brackets x 0 0 (not_lt.mp hx)]
    simp only [max_self]
    exact le_max_right _ _

/-- Witness for C8: the 2025 IRPEF table is valid, and the tax on 10000 is
at most the tax on 30000. -/
theorem c8_bracket_tax_monotone_witness :
    calc_irpef_tax 10000 italian_irpef_2025 ≤ calc_irpef_tax 30000 italian_irpef_2025 :=
  c8_bracket_tax_monotone italian_irpef_2025 10000 30000
    (ValidFrom.cons 0 28000 (23/100) _ (by norm_num) (by norm_num) (by norm_num)
      (ValidFrom.cons 28000 50000 (35/100) _ (by norm_num) (by norm_num) (by norm_num)
        (ValidFrom.last 50000 (43/100) (by norm_num) (by norm_num))))
    (by norm_num)

/-- Minimal model of the pandas DataFrame as used by `add_real_terms` in
`app/modules/utils.py`: a row count (`len(df)`) and named columns of
rationals, in order. -/
structure DataFrame where
  nrows : ℕ
  cols : List (String × List ℚ)

/-- Column lookup `df[c]`.  A missing name returns `[]` here; in pandas it
raises, so the theorems constrain the names involved. -/
def DataFrame.getCol (df : DataFrame) (name : String) : List ℚ :=
  match df.cols.find? (fun pr => pr.1 == name) with
  | some pr => pr.2
  | none => []

/-- Column assignment `df[name] = v`: replaces the column when the name is
present and appends it otherwise, as in pandas. -/
def DataFrame.setCol (df : DataFrame) (name : String) (v : List ℚ) : DataFrame :=
  ⟨df.nrows,
   if df.cols.any (fun pr => pr.1 == name) then
     df.cols.map (fun pr => if pr.1 == name then (name, v) else pr)
   else df.cols ++ [(name, v)]⟩

/-- Embedding of `add_real_terms` from `app/modules/utils.py`: build the
`Inflation_Index` column `[(1 + inflation_pct/100) ** i for i in
range(len(df))]` and, for each requested column `c`, the column `c_real`
as the elementwise quotient `df[c] / df["Inflation_Index"]`.  The
`df.copy()` of the source corresponds to this being a pure function. -/
def add_real_terms (df : DataFrame) (cols : List String) (inflation_pct : ℚ) : DataFrame :=
  let infl := 1 + inflation_pct / 100
  let df1 := df.setCol "Inflation_Index" ((List.range df.nrows).map (fun i => infl ^ i))
  cols.foldl (fun acc c =>
    acc.setCol (c ++ "_real")
      (List.zipWith (fun v d => v / d) (acc.getCol c) (acc.getCol "Inflation_Index"))) df1

/-- Reading back the column just assigned returns the assigned values. -/
theorem getCol_setCol_self (df : DataFrame) (n : String) (v : List ℚ) :
    (df.setCol n v).getCol n = v := by
  obtain ⟨nr, l⟩ := df
  simp only [DataFrame.setCol, DataFrame.getCol]
  induction l with
  | nil => simp [List.find?]
  | cons hd tl ih =>
    by_cases hh : (hd.1 == n) = true
    · simp only [List.any_cons, hh, Bool.true_or, if_true, List.map_cons, if_pos hh]
      simp [List.find?]
    · have hhf : (hd.1 == n) = false := by simpa using hh
      simp only [List.any_cons, hhf, Bool.false_or, List.map_cons, if_neg hh]
      by_cases hany : (tl.any fun pr => pr.1 == n) = true
      · rw [if_pos hany] at ih ⊢
        simpa [List.find?, hhf] using ih
      · rw [if_neg hany] at ih ⊢
        simpa [List.find?, hhf] using ih

/-- Replacing a column in place keeps every other lookup unchanged. -/
theorem find?_map_set (l : List (String × List ℚ)) (n n' : String) (v : List ℚ)
    (hne : n' ≠ n) :
    (l.map (fun pr => if pr.1 == n then (n, v) else pr)).find? (fun pr => pr.1 == n') =
      l.find? (fun pr => pr.1 == n') := by
  induction l with
  | nil => rfl
  | cons hd tl ih =>
    by_cases hh : (hd.1 == n) = true
    · have hd1 : hd.1 = n := by simpa using hh
      have hno : ((n, v).1 == n') = false := by simp [Ne.symm hne]
      have hno' : (hd.1 == n') = false := by simp [hd1, Ne.symm hne]
      simp only [List.map_cons, if_pos hh]
      simpa [List.find?, hno, hno'] using ih
    · simp only [List.map_cons, if_neg hh]
      by_cases hh' : (hd.1 == n') = true
      · simp [List.find?, hh']
      · have hh'f : (hd.1 == n') = false := by simpa using hh'
        simpa [List.find?, hh'f] using ih

/-- Assigning a column leaves every differently-named column unchanged. -/
theorem getCol_setCol_ne (df : DataFrame) (n n' : String) (v : List ℚ)
    (hne : n' ≠ n) : (df.setCol n v).getCol n' = df.getCol n' := by
  obtain ⟨nr, l⟩ := df
  simp only [DataFrame.setCol, DataFrame.getCol]
  by_cases hany : (l.any fun pr => pr.1 == n) = true
  · rw [if_pos hany, find?_map_set l n n' v hne]
  · rw [if_neg hany]
    induction l with
    | nil =>
      have hno : ((n, v).1 == n') = false := by simp [Ne.symm hne]
      simp [List.find?, hno]
    | cons hd tl ih =>
      have hany' : ¬ (tl.any fun pr => pr.1 == n) = true := by
        intro hc
        exact hany (by simp [List.any_cons, hc])
      by_cases hh' : (hd.1 == n') = true
      · simp [List.find?, hh']
      · have hh'f : (hd.1 == n') = false := by simpa using hh'
        simpa [List.find?, hh'f] using ih hany'

/-- Folding the real-column assignments over a column list leaves every
column unchanged whose name is none of the generated `c_real` names. -/
theorem foldl_real_getCol_preserved :
    ∀ (cols : List String) (name : String),
      (∀ c ∈ cols, c ++ "_real" ≠ name) →
      ∀ acc : DataFrame,
        (cols.foldl (fun acc c =>
          acc.setCol (c ++ "_real")
            (List.zipWith (fun v d => v / d) (acc.getCol c)
              (acc.getCol "Inflation_Index"))) acc).getCol name = acc.getCol name := by
  intro cols
  induction cols with
  | nil => intro name h acc; rfl
  | cons c cs ih =>
    intro name h acc
    simp only [List.foldl_cons]
    rw [ih name (fun c' hc' => h c' (List.mem_cons_of_mem _ hc'))]
    exact getCol_setCol_ne _ _ _ _ (Ne.symm (h c (List.mem_cons_self c cs)))

/-- After the fold, each requested column's `c_real` column holds the
original nominal values divided elementwise by the inflation index. -/
theorem foldl_real_getCol_real :
    ∀ (cols : List String) (nom : String → List ℚ) (idx : List ℚ) (acc : DataFrame),
      acc.getCol "Inflation_Index" = idx →
      (∀ c ∈ cols, acc.getCol c = nom c) →
      (cols.map (fun c => c ++ "_real")).Nodup →
      (∀ c ∈ cols, c ++ "_real" ≠ "Inflation_Index") →
      (∀ c ∈ cols, ∀ c' ∈ cols, c' ++ "_real" ≠ c) →
      ∀ c ∈ cols,
        (cols.foldl (fun acc c =>
          acc.setCol (c ++ "_real")
            (List.zipWith (fun v d => v / d) (acc.getCol c)
              (acc.getCol "Inflation_Index"))) acc).getCol (c ++ "_real") =
          List.zipWith (fun v d => v / d) (nom c) idx := by
  intro cols
  induction cols with
  | nil =>
    intro nom idx acc _ _ _ _ _ c hc
    cases hc
  | cons c0 cs ih =>
    intro nom idx acc hidx hnom hnodup hind hcross c hc
    have hc0 : c0 ∈ c0 :: cs := List.mem_cons_self c0 cs
    have hacc'idx : (acc.setCol (c0 ++ "_real")
        (List.zipWith (fun v d => v / d) (acc.getCol c0)
          (acc.getCol "Inflation_Index"))).getCol "Inflation_Index" = idx := by
      rw [getCol_setCol_ne _ _ _ _ (Ne.symm (hind c0 hc0))]
      exact hidx
    have hnd : (∀ x ∈ cs, ¬ x ++ "_real" = c0 ++ "_real") ∧
        (cs.map (fun c => c ++ "_real")).Nodup := by simpa using hnodup
    simp only [List.foldl_cons]
    rcases List.mem_cons.mp hc with rfl | hc'
    · have hpres : ∀ c' ∈ cs, c' ++ "_real" ≠ c ++ "_real" :=
        fun c' hc' heq => hnd.1 c' hc' heq
      rw [foldl_real_getCol_preserved cs (c ++ "_real") hpres]
      rw [getCol_setCol_self]
      rw [hnom c hc0, hidx]
    · refine ih nom idx _ hacc'idx ?_ ?_ ?_ ?_ c hc'
      · intro c'' hc''
        rw [getCol_setCol_ne _ _ _ _
          (Ne.symm (hcross c'' (List.mem_cons_of_mem _ hc'') c0 hc0))]
        exact hnom c'' (List.mem_cons_of_mem _ hc'')
      · exact hnd.2
      · exact fun c'' hc'' => hind c'' (List.mem_cons_of_mem _ hc'')
      · exact fun c'' hc'' c''' hc''' =>
          hcross c'' (List.mem_cons_of_mem _ hc'') c''' (List.mem_cons_of_mem _ hc''')

/-- Dividing elementwise by non-zero deflators and multiplying back
recovers the original column. -/
theorem zipWith_div_mul (xs : List ℚ) :
    ∀ (ds : List ℚ), xs.length = ds.length → (∀ d ∈ ds, d ≠ 0) →
      List.zipWith (fun rv d => rv * d) (List.zipWith (fun v d => v / d) xs ds) ds = xs := by
  induction xs with
  | nil =>
    intro ds hlen _
    cases ds with
    | nil => rfl
    | cons d ds => simp at hlen
  | cons x xs ih =>
    intro ds hlen hne
    cases ds with
    | nil => simp at hlen
    | cons d ds =>
      simp only [List.zipWith_cons_cons, List.cons.injEq]
      refine ⟨div_mul_cancel₀ x (hne d (List.mem_cons_self d ds)),
        ih ds (by simpa using hlen) (fun d' hd' => hne d' (List.mem_cons_of_mem _ hd'))⟩

/-- C5 (amended): for every inflation rate whose deflator base
`1 + inflation_pct/100` is non-zero, and whenever the generated names
(`Inflation_Index` and the `c_real` names) do not collide with the input
table's column names or the requested columns, `add_real_terms` leaves
every input column unchanged when read back and produces for each requested
column `c` a `c_real` column that, multiplied elementwise by
`(1 + inflation)^i` at row `i`, recovers the nominal column exactly. -/
theorem c5_real_terms_roundtrip (df : DataFrame) (cols : List String) (inflation_pct : ℚ)
    (hinfl : 1 + inflation_pct / 100 ≠ 0)
    (hlen : ∀ c ∈ cols, (df.getCol c).length = df.nrows)
    (hnodup : (cols.map (fun c => c ++ "_real")).Nodup)
    (hind : ∀ c ∈ cols, c ++ "_real" ≠ "Inflation_Index")
    (hcii : ∀ c ∈ cols, c ≠ "Inflation_Index")
    (hcross : ∀ c ∈ cols, ∀ c' ∈ cols, c' ++ "_real" ≠ c)
    (hnames : ∀ name ∈ df.cols.map Prod.fst, name ≠ "Inflation_Index" ∧
      ∀ c ∈ cols, c ++ "_real" ≠ name) :
    (∀ name ∈ df.cols.map Prod.fst,
      (add_real_terms df cols inflation_pct).getCol name = df.getCol name) ∧
    (∀ c ∈ cols,
      List.zipWith (fun rv d => rv * d)
        ((add_real_terms df cols inflation_pct).getCol (c ++ "_real"))
        ((List.range df.nrows).map (fun i => (1 + inflation_pct / 100) ^ i)) =
      df.getCol c) := by
  have hdf1idx : (df.setCol "Inflation_Index"
      ((List.range df.nrows).map (fun i => (1 + inflation_pct / 100) ^ i))).getCol
        "Inflation_Index" =
      (List.range df.nrows).map (fun i => (1 + inflation_pct / 100) ^ i) :=
    getCol_setCol_self _ _ _
  have hdf1nom : ∀ c ∈ cols, (df.setCol "Inflation_Index"
      ((List.range df.nrows).map (fun i => (1 + inflation_pct / 100) ^ i))).getCol c =
      df.getCol c :=
    fun c hc => getCol_setCol_ne _ _ _ _ (hcii c hc)
  constructor
  · intro name hname
    simp only [add_real_terms]
    rw [foldl_real_getCol_preserved cols name (fun c hc => (hnames name hname).2 c hc)]
    exact getCol_setCol_ne _ _ _ _ (hnames name hname).1
  · intro c hc
    simp only [add_real_terms]
    rw [foldl_real_getCol_real cols (fun c => df.getCol c)
      ((List.range df.nrows).map (fun i => (1 + inflation_pct / 100) ^ i)) _
      hdf1idx hdf1nom hnodup hind hcross c hc]
    apply zipWith_div_mul
    · rw [hlen c hc]
      simp
    · intro d hd
      simp only [List.mem_map] at hd
      obtain ⟨i, _, rfl⟩ := hd
      exact pow_ne_zero i hinfl

/-- Witness for C5 (amended): a two-row table with column `A = [10, 21]`
and inflation 100% (deflator base 2): the nominal column is unchanged and
`A_real` times the index recovers `[10, 21]`. -/
theorem c5_real_terms_roundtrip_witness :
    (add_real_terms ⟨2, [("A", [10, 21])]⟩ ["A"] 100).getCol "A" = [10, 21] ∧
    List.zipWith (fun rv d => rv * d)
      ((add_real_terms ⟨2, [("A", [10, 21])]⟩ ["A"] 100).getCol ("A" ++ "_real"))
      ((List.range 2).map (fun i => (1 + (100 : ℚ) / 100) ^ i)) = [10, 21] := by
  have h := c5_real_terms_roundtrip ⟨2, [("A", [10, 21])]⟩ ["A"] 100
    (by norm_num)
    (by intro c hc; simp only [List.mem_singleton] at hc; subst hc
        simp [DataFrame.getCol, List.find?])
    (by simp)
    (by decide)
    (by decide)
    (by decide)
    (by decide)
  have hA : ("A" : String) ∈ (⟨2, [("A", [10, 21])]⟩ : DataFrame).cols.map Prod.fst := by
    simp
  have hAc : ("A" : String) ∈ ["A"] := by simp
  refine ⟨(h.1 "A" hA).trans ?_, (h.2 "A" hAc).trans ?_⟩ <;>
    simp [DataFrame.getCol, List.find?]

/-- Counterexample to C5 as universally stated: at inflation rate −100%
the deflator base is 0, the inflation index of the second row is 0, the
real value becomes `5 / 0 = 0`, and `0 * 0 ≠ 5`: the round-trip fails, so
the claim does not hold for *every* inflation rate. -/
theorem c5_real_terms_counterexample :
    ((add_real_terms ⟨2, [("A", [5, 5])]⟩ ["A"] (-100)).getCol ("A" ++ "_real")).getD 1 0 *
        (1 + (-100 : ℚ) / 100) ^ 1 = 0 ∧
    ((⟨2, [("A", [5, 5])]⟩ : DataFrame).getCol "A").getD 1 0 = 5 ∧
    (0 : ℚ) ≠ 5 := by
  refine ⟨?_, by simp [DataFrame.getCol, List.find?], by norm_num⟩
  norm_num [add_real_terms, DataFrame.setCol, DataFrame.getCol, List.find?, List.foldl,
    List.range_succ, List.zipWith, List.getD]
